import Mathlib

/-!
# Shallow embedding of the zdns iterative cache

This file embeds the cache component of the zdns resolver (`cache.go`) and its
statistics helper (`cache_stats.go`) and proves properties about them.

Modelling conventions:

* Go `time.Time` instants are natural numbers; every operation that calls
  `time.Now()` in the source instead receives that instant as an explicit
  `now` parameter.  `ExpiresAt.Before(now)` is the strict order
  `ExpiresAt < now`.
* Go `interface\x7b\x7d` values are closed sums: `RecordValue` for values that may
  or may not be an `Answer`, `StoreValue` for values stored in the sharded
  cache that may or may not be a `CachedResult`.  A failed type assertion in
  the source corresponds to the `other` constructor here.
* The two `log.Panic` sites of the source (a stored value that is not a
  `CachedResult`, and a stored answer that is not an `Answer`) abort the
  process.  Operations that can reach them return an `Option`; the value
  `none` models the abort.
* Go maps are association lists with unique keys: `alistPut` overwrites the
  binding of an existing key in place and appends otherwise, `alistGet` looks
  a key up, and deleting entries while ranging over a map is modelled by
  filtering.  Iteration order is the list order (Go's map order is
  unspecified; no claim depends on it).
* The sharded store is modelled without its capacity bound: `Lock`/`Unlock`
  are irrelevant in this sequential model, `Get`/`GetNoMove` differ only in
  LRU bookkeeping and both become `alistGet`, `Add` becomes `alistPut`.
* Logging calls and the `depth`/`debugType` parameters are diagnostic only
  and are dropped.
-/

namespace ZDNS

/-- Record-type code `dns.TypeA` of the DNS wire protocol. -/
def TypeA : Nat := 1

/-- Record-type code `dns.TypeNS`. -/
def TypeNS : Nat := 2

/-- Record-type code `dns.TypeCNAME`. -/
def TypeCNAME : Nat := 5

/-- Record-type code `dns.TypeMX`. -/
def TypeMX : Nat := 15

/-- Record-type code `dns.TypeAAAA`. -/
def TypeAAAA : Nat := 28

/-- Record-type code `dns.TypeDNAME`. -/
def TypeDNAME : Nat := 39

/-- The fields of the externally defined `zdns.Answer` record that the cache
code reads: owner name, numeric record type (`RrType`), TTL in seconds, and
the type-specific data (rendered as a string, as in the source).  Fields the
cache never consults are omitted. -/
structure Answer where
  Name : String
  RrType : Nat
  Ttl : Nat
  Data : String
deriving DecidableEq

/-- A Go interface value passed to the cache: either an `Answer` or some
other value (whose identity is abstracted by a tag). -/
inductive RecordValue where
  | answer (a : Answer)
  | other (tag : Nat)
deriving DecidableEq

/-- The externally defined `zdns.Question`: what was asked.  The Go field
`Type` is renamed `Qtype` because `Type` is reserved in Lean. -/
structure Question where
  Name : String
  Qtype : Nat
deriving DecidableEq

/-- `TimedAnswer` from the source: an answer together with its absolute
expiration instant. -/
structure TimedAnswer where
  Answer : RecordValue
  ExpiresAt : Nat
deriving DecidableEq

/-- `CachedKey` from the source: question, optional nameserver scope (the
empty string when unscoped), and the authority-entry flag. -/
structure CachedKey where
  Question : Question
  NameServer : String
  IsAuthority : Bool
deriving DecidableEq

/-- `CachedResult` from the source: a map from the answer value (used as the
map key) to its `TimedAnswer`. -/
structure CachedResult where
  Answers : List (RecordValue × TimedAnswer)
deriving DecidableEq

/-- A value stored in the sharded cache: either a `CachedResult` or some
other value (a corrupt entry, abstracted by a tag). -/
inductive StoreValue where
  | cachedResult (r : CachedResult)
  | other (tag : Nat)
deriving DecidableEq

/-- The externally defined `zdns.NameServer`, reduced to the rendering its
`String()` method produces, which is all the cache uses. -/
structure NameServer where
  Str : String
deriving DecidableEq

/-- The `String()` method of `NameServer`. -/
def NameServer.String (ns : NameServer) : String := ns.Str

/-- The nameserver component of a cache key: the empty string for a `nil`
nameserver pointer, `ns.String()` otherwise (both call sites in the source
initialize the field to `""` and overwrite it when `ns != nil`). -/
def nsString : Option NameServer → String
  | none => ""
  | some ns => ns.String

/-- The response flags of `SingleQueryResult` that the cache reads. -/
structure DNSFlags where
  Authoritative : Bool
deriving DecidableEq

/-- The fields of the externally defined `zdns.SingleQueryResult` that the
cache reads or writes.  Default values are the Go zero values. -/
structure SingleQueryResult where
  Answers : List RecordValue := []
  Additional : List RecordValue := []
  Authorities : List RecordValue := []
  Flags : DNSFlags := { Authoritative := false }
  Resolver : String := ""
deriving DecidableEq

/-- Lookup in an association list, modelling Go map indexing. -/
def alistGet {K V : Type} [DecidableEq K] : List (K × V) → K → Option V
  | [], _ => none
  | p :: rest, k => if p.1 = k then some p.2 else alistGet rest k

/-- Insert-or-overwrite in an association list, modelling Go map assignment:
the binding of an existing key is replaced in place, a new key is appended. -/
def alistPut {K V : Type} [DecidableEq K] : List (K × V) → K → V → List (K × V)
  | [], k, v => [(k, v)]
  | p :: rest, k, v => if p.1 = k then (k, v) :: rest else p :: alistPut rest k v

/-- Uniqueness of keys in an association list (a Go map never holds a key
twice). -/
def noDupKeys {K V : Type} [DecidableEq K] : List (K × V) → Bool
  | [] => true
  | p :: rest => !(rest.any fun p2 => decide (p2.1 = p.1)) && noDupKeys rest

/-- The cache: the sharded store's contents, as key-value bindings. -/
structure Cache where
  IterativeCache : List (CachedKey × StoreValue)
deriving DecidableEq

/-- `Cache.Init`: a fresh, empty store.  The capacity argument configures the
(unmodelled) eviction bound of the sharded store. -/
def Cache.Init (_cacheSize : Nat) : Cache := { IterativeCache := [] }

/-- Modelled from the spec: `questionFromAnswer` is not under `src/`; per the
spec, a `Question` is the (name, record-type) pair identifying what was
asked, and `AddCachedAnswer` "builds the CacheKey from the answer's
question", i.e. the answer's owner name and record type. -/
def questionFromAnswer (a : Answer) : Question :=
  { Name := a.Name, Qtype := a.RrType }

/-- Modelled from the spec: `nameIsBeneath` is not under `src/`; per the
spec, it requires the answer's owner name "to be equal to, or a strict
subdomain of" the zone layer (its character sequence ends in a dot followed
by the layer). -/
def nameIsBeneath (name layer : String) : Bool :=
  name == layer || (("." ++ layer).data.isSuffixOf name.data)

/-- Modelled from the spec: `util.Concat` is not under `src/`; it
concatenates the Authority and Additional record sequences. -/
def Concat (a b : List RecordValue) : List RecordValue := a ++ b

/-- The record-type admission predicate of `AddCachedAnswer` (source line
131): only A, AAAA, NS, DNAME, CNAME records are cached. -/
abbrev cacheableType (t : Nat) : Prop :=
  t = TypeA ∨ t = TypeAAAA ∨ t = TypeNS ∨ t = TypeDNAME ∨ t = TypeCNAME

/-- The cache key built by `AddCachedAnswer` and `GetCachedResult`:
`CachedKey\x7bq, "", false\x7d`, with the nameserver field overwritten when a
nameserver is given. -/
def answerKey (q : Question) (ns : Option NameServer) : CachedKey :=
  { Question := q, NameServer := nsString ns, IsAuthority := false }

/-- The delegation-snapshot key built by `SafeAddLayerNameServers` and
`GetLayerNameServers`: an NS question for the layer with `IsAuthority` set. -/
def layerKey (name : String) : CachedKey :=
  { Question := { Name := name, Qtype := TypeNS }, NameServer := "", IsAuthority := true }

/-- `Cache.AddCachedAnswer` from the source.  Returns `none` exactly on the
`log.Panic` path (an existing stored value that is not a `CachedResult`). -/
def Cache.AddCachedAnswer (s : Cache) (answer : RecordValue) (ns : Option NameServer)
    (now : Nat) : Option Cache :=
  match answer with
  | RecordValue.other _ => some s
  | RecordValue.answer a =>
    let q := questionFromAnswer a
    if ¬ cacheableType q.Qtype then
      some s
    else
      let expiresAt := now + a.Ttl
      let cacheKey := answerKey q ns
      let upsert : CachedResult → Option Cache := fun ca =>
        some { IterativeCache := alistPut s.IterativeCache cacheKey
                 (StoreValue.cachedResult
                   { Answers := alistPut ca.Answers answer
                       { Answer := answer, ExpiresAt := expiresAt } }) }
      match alistGet s.IterativeCache cacheKey with
      | none => upsert { Answers := [] }
      | some (StoreValue.cachedResult r) => upsert r
      | some (StoreValue.other _) => none

/-- `Cache.GetCachedResult` from the source: look the key up; on a miss
return the zero result and `false`; on a hit delete expired answers in place,
return the zero result and `false` if nothing survives, and otherwise the
surviving answers with `true`.  Returns `none` exactly on the `log.Panic`
path (a stored value that is not a `CachedResult`). -/
def Cache.GetCachedResult (s : Cache) (q : Question) (ns : Option NameServer) (now : Nat) :
    Option (Cache × SingleQueryResult × Bool) :=
  let cacheKey := answerKey q ns
  match alistGet s.IterativeCache cacheKey with
  | none => some (s, {}, false)
  | some (StoreValue.other _) => none
  | some (StoreValue.cachedResult cachedRes) =>
    let surviving := cachedRes.Answers.filter fun p => decide (¬ p.2.ExpiresAt < now)
    let retv : SingleQueryResult :=
      { Answers := surviving.map fun p => p.2.Answer
        Additional := []
        Authorities := []
        Flags := { Authoritative := false }
        Resolver := "" }
    let s' : Cache :=
      { IterativeCache := alistPut s.IterativeCache cacheKey
          (StoreValue.cachedResult { Answers := surviving }) }
    if retv.Answers.isEmpty && retv.Authorities.isEmpty && retv.Additional.isEmpty then
      some (s', {}, false)
    else
      some (s', { retv with Resolver := nsString ns }, true)

/-- `Cache.SafeAddCachedAnswer` from the source: drop values that are not an
`Answer`; drop answers whose owner name is not beneath the layer (poison);
otherwise delegate to `AddCachedAnswer`. -/
def Cache.SafeAddCachedAnswer (s : Cache) (a : RecordValue) (ns : Option NameServer)
    (layer : String) (now : Nat) : Option Cache :=
  match a with
  | RecordValue.other _ => some s
  | RecordValue.answer ans =>
    if !nameIsBeneath ans.Name layer then some s
    else s.AddCachedAnswer a ns now

/-- The map-building loop of `SafeAddLayerNameServers`: walk the concatenated
Authority and Additional records, skip values that are not an `Answer`, skip
record types other than NS, A, AAAA, and insert the rest keyed by the record
value itself. -/
def buildLayerTimedAnswers (now : Nat) :
    List RecordValue → List (RecordValue × TimedAnswer) → List (RecordValue × TimedAnswer)
  | [], m => m
  | a :: rest, m =>
    match a with
    | RecordValue.other _ => buildLayerTimedAnswers now rest m
    | RecordValue.answer castAns =>
      if castAns.RrType ≠ TypeNS ∧ castAns.RrType ≠ TypeA ∧ castAns.RrType ≠ TypeAAAA then
        buildLayerTimedAnswers now rest m
      else
        buildLayerTimedAnswers now rest
          (alistPut m a { Answer := a, ExpiresAt := now + castAns.Ttl })

/-- `Cache.SafeAddLayerNameServers` from the source: build the delegation
snapshot from the Authority and Additional sections and store it wholesale at
the layer's authority key.  The nameserver and
`cacheNonAuthoritativeAns` parameters are unused in the source body. -/
def Cache.SafeAddLayerNameServers (s : Cache) (layer : String) (result : SingleQueryResult)
    (_ns : Option NameServer) (now : Nat) (_cacheNonAuthoritativeAns : Bool) : Cache :=
  let authsAndAdditionals := Concat result.Authorities result.Additional
  let timedAns := buildLayerTimedAnswers now authsAndAdditionals []
  { IterativeCache := alistPut s.IterativeCache (layerKey layer)
      (StoreValue.cachedResult { Answers := timedAns }) }

/-- The scan loop of `GetLayerNameServers`: delete expired entries, abort
(`log.Panic`, modelled as `none`) on a surviving stored answer that is not an
`Answer`, route NS records to Authorities and A/AAAA records to Additional,
and keep any other surviving record in the map without returning it.
Produces the surviving map together with the two result sections. -/
def layerScan (now : Nat) :
    List (RecordValue × TimedAnswer) →
    Option (List (RecordValue × TimedAnswer) × List RecordValue × List RecordValue)
  | [] => some ([], [], [])
  | p :: rest =>
    if p.2.ExpiresAt < now then
      layerScan now rest
    else
      match p.2.Answer with
      | RecordValue.other _ => none
      | RecordValue.answer castAns =>
        match layerScan now rest with
        | none => none
        | some (kept, auths, addls) =>
          if castAns.RrType = TypeNS then
            some (p :: kept, RecordValue.answer castAns :: auths, addls)
          else if castAns.RrType = TypeA ∨ castAns.RrType = TypeAAAA then
            some (p :: kept, auths, RecordValue.answer castAns :: addls)
          else
            some (p :: kept, auths, addls)

/-- `Cache.GetLayerNameServers` from the source: look the authority key up;
on a miss return the zero result and `false`; on a hit expire stale records
in place, split survivors into Authorities (NS) and Additional (A/AAAA), and
return them with `true` (unconditionally).  Returns `none` exactly on a
`log.Panic` path. -/
def Cache.GetLayerNameServers (s : Cache) (name : String) (now : Nat) :
    Option (Cache × SingleQueryResult × Bool) :=
  let cacheKey := layerKey name
  match alistGet s.IterativeCache cacheKey with
  | none => some (s, {}, false)
  | some (StoreValue.other _) => none
  | some (StoreValue.cachedResult cachedRes) =>
    match layerScan now cachedRes.Answers with
    | none => none
    | some (kept, auths, addls) =>
      some ({ IterativeCache := alistPut s.IterativeCache cacheKey
                (StoreValue.cachedResult { Answers := kept }) },
            { Answers := []
              Authorities := auths
              Additional := addls
              Flags := { Authoritative := false }
              Resolver := "" },
            true)

/-- Running a list of records through `SafeAddCachedAnswer` one after the
other, stopping (with `none`) if any step aborts. -/
def foldSafeAdd (s : Cache) (l : List RecordValue) (ns : Option NameServer)
    (layer : String) (now : Nat) : Option Cache :=
  match l with
  | [] => some s
  | a :: rest =>
    match s.SafeAddCachedAnswer a ns layer now with
    | none => none
    | some s' => foldSafeAdd s' rest ns layer now

/-- `Cache.CacheUpdate` from the source: run every Additional record, then
every Authority record, through `SafeAddCachedAnswer`; run the Answer records
through it only when the response is authoritative or the caller opted in. -/
def Cache.CacheUpdate (s : Cache) (layer : String) (result : SingleQueryResult)
    (ns : Option NameServer) (now : Nat) (cacheNonAuthoritativeAns : Bool) : Option Cache :=
  match foldSafeAdd s result.Additional ns layer now with
  | none => none
  | some s1 =>
    match foldSafeAdd s1 result.Authorities ns layer now with
    | none => none
    | some s2 =>
      if result.Flags.Authoritative || cacheNonAuthoritativeAns then
        foldSafeAdd s2 result.Answers ns layer now
      else
        some s2

/-- `CacheStatistics` from `cache_stats.go`: the four counters and the
capture flag. -/
structure CacheStatistics where
  ShouldCaptureStatistics : Bool
  Hits : Nat
  Misses : Nat
  Adds : Nat
  Ejects : Nat
deriving DecidableEq

/-- `CacheStatistics.IncrementHits` from the source. -/
def CacheStatistics.IncrementHits (s : CacheStatistics) : CacheStatistics :=
  if s.ShouldCaptureStatistics then { s with Hits := s.Hits + 1 } else s

/-- `CacheStatistics.IncrementMisses` from the source. -/
def CacheStatistics.IncrementMisses (s : CacheStatistics) : CacheStatistics :=
  if s.ShouldCaptureStatistics then { s with Misses := s.Misses + 1 } else s

/-- `CacheStatistics.IncrementAdds` from the source. -/
def CacheStatistics.IncrementAdds (s : CacheStatistics) : CacheStatistics :=
  if s.ShouldCaptureStatistics then { s with Adds := s.Adds + 1 } else s

/-- `CacheStatistics.IncrementEjects` from the source. -/
def CacheStatistics.IncrementEjects (s : CacheStatistics) : CacheStatistics :=
  if s.ShouldCaptureStatistics then { s with Ejects := s.Ejects + 1 } else s

/-- The cache-read/statistics composition as the source actually wires it: a
`GetCachedResult` call neither consults nor updates any `CacheStatistics`
value — the `Hits`/`Misses` increments at the hit and miss sites of
`cache.go` are commented out and the `Cache` struct carries no counters — so
the statistics component passes through a read unchanged. -/
def cacheGetWithStats (c : Cache) (st : CacheStatistics) (q : Question)
    (ns : Option NameServer) (now : Nat) :
    Option (Cache × CacheStatistics × SingleQueryResult × Bool) :=
  match c.GetCachedResult q ns now with
  | none => none
  | some (c', r, f) => some (c', st, r, f)

/-- Follows the spec's words: the canonical identity of an `Answer` is "its
defining fields: name, type, data — not including TTL".  Used to compare the
spec's dedup key with the one the source actually uses (the full record,
TTL included). -/
def specCanonicalIdentity (a : Answer) : String × Nat × String :=
  (a.Name, a.RrType, a.Data)

/-- Well-formedness of one stored cache entry: every binding's stored
`TimedAnswer` carries back the map key it is stored under (the source always
writes `map[a] = TimedAnswer\x7bAnswer: a, ...\x7d`), and keys are unique. -/
def entryWF (cr : CachedResult) : Bool :=
  (cr.Answers.all fun p => decide (p.2.Answer = p.1)) && noDupKeys cr.Answers

/-- Well-formedness of a stored value: it is a well-formed `CachedResult`. -/
def storeValueWF : StoreValue → Bool
  | StoreValue.cachedResult cr => entryWF cr
  | StoreValue.other _ => false

/-- Well-formedness of the whole cache: store keys are unique and every
stored value is a well-formed `CachedResult`. -/
def cacheWF (s : Cache) : Bool :=
  noDupKeys s.IterativeCache && (s.IterativeCache.all fun p => storeValueWF p.2)

/-- The cache states reachable through the public cache API from a freshly
initialized cache, at arbitrary times and with arbitrary inputs. -/
inductive Reachable : Cache → Prop where
  | init (cap : Nat) : Reachable (Cache.Init cap)
  | add {s s2 : Cache} {a : RecordValue} {ns : Option NameServer} {now : Nat} :
      Reachable s → s.AddCachedAnswer a ns now = some s2 → Reachable s2
  | get {s s2 : Cache} {q : Question} {ns : Option NameServer} {now : Nat}
      {r : SingleQueryResult} {f : Bool} :
      Reachable s → s.GetCachedResult q ns now = some (s2, r, f) → Reachable s2
  | safeAdd {s s2 : Cache} {a : RecordValue} {ns : Option NameServer} {layer : String}
      {now : Nat} :
      Reachable s → s.SafeAddCachedAnswer a ns layer now = some s2 → Reachable s2
  | addLayer {s : Cache} {layer : String} {result : SingleQueryResult}
      {ns : Option NameServer} {now : Nat} {b : Bool} :
      Reachable s → Reachable (s.SafeAddLayerNameServers layer result ns now b)
  | getLayer {s s2 : Cache} {name : String} {now : Nat} {r : SingleQueryResult} {f : Bool} :
      Reachable s → s.GetLayerNameServers name now = some (s2, r, f) → Reachable s2
  | update {s s2 : Cache} {layer : String} {result : SingleQueryResult}
      {ns : Option NameServer} {now : Nat} {b : Bool} :
      Reachable s → s.CacheUpdate layer result ns now b = some s2 → Reachable s2

/-- The A record used in the concrete TTL-boundary checks: owner
`example.com`, type A, TTL 5 seconds. -/
def c3a : Answer := ⟨"example.com", TypeA, 5, "1.2.3.4"⟩

/-- The cache state obtained by adding `c3a` to a fresh cache at time 0. -/
def c3s1 : Cache :=
  ⟨[(answerKey ⟨"example.com", TypeA⟩ none,
     StoreValue.cachedResult ⟨[(RecordValue.answer c3a, ⟨RecordValue.answer c3a, 5⟩)]⟩)]⟩

/-- First of two A records for `a.example.com` that differ only in TTL. -/
def c4a1 : Answer := ⟨"a.example.com", TypeA, 5, "1.2.3.4"⟩

/-- Second of two A records for `a.example.com` that differ only in TTL. -/
def c4a2 : Answer := ⟨"a.example.com", TypeA, 7, "1.2.3.4"⟩

/-- The cache state after adding `c4a1` to a fresh cache at time 0. -/
def c4s1 : Cache :=
  ⟨[(answerKey ⟨"a.example.com", TypeA⟩ none,
     StoreValue.cachedResult ⟨[(RecordValue.answer c4a1, ⟨RecordValue.answer c4a1, 5⟩)]⟩)]⟩

/-- The cache state after also adding `c4a2` at time 0: the entry holds both
TTL variants side by side. -/
def c4s2 : Cache :=
  ⟨[(answerKey ⟨"a.example.com", TypeA⟩ none,
     StoreValue.cachedResult ⟨[(RecordValue.answer c4a1, ⟨RecordValue.answer c4a1, 5⟩),
                               (RecordValue.answer c4a2, ⟨RecordValue.answer c4a2, 7⟩)]⟩)]⟩

/-- A cache state holding corrupt (non-`CachedResult`) stored values under
both an answer key and a delegation-snapshot key. -/
def c1bad : Cache :=
  ⟨[(answerKey ⟨"example.com", TypeA⟩ none, StoreValue.other 7),
    (layerKey "example.com", StoreValue.other 7)]⟩

/-- A second corrupt cache state, for the witness instance. -/
def c1bad2 : Cache :=
  ⟨[(answerKey ⟨"test.example", TypeNS⟩ none, StoreValue.other 9),
    (layerKey "test.example", StoreValue.other 9)]⟩

/-- A live A record used in the empty-result checks. -/
def c2wa : Answer := ⟨"a.example", TypeA, 10, "1.2.3.4"⟩

/-- A cache state with one live answer entry and one empty delegation
snapshot. -/
def c2wState : Cache :=
  ⟨[(answerKey ⟨"a.example", TypeA⟩ none,
     StoreValue.cachedResult ⟨[(RecordValue.answer c2wa, ⟨RecordValue.answer c2wa, 10⟩)]⟩),
    (layerKey "b.example", StoreValue.cachedResult ⟨[]⟩)]⟩

/-- The result returned for the live answer entry of `c2wState` at time 0. -/
def c2wr : SingleQueryResult :=
  ⟨[RecordValue.answer c2wa], [], [], ⟨false⟩, ""⟩

/-- An MX record (not admitted by any cache write path). -/
def c7mx : Answer := ⟨"example.com", TypeMX, 60, "mail.example.com."⟩

/-- An NS record admitted into delegation snapshots. -/
def c7ns : Answer := ⟨"example.com", TypeNS, 60, "ns1.example.com."⟩

/-- A query result whose Authority section holds one NS and one MX record. -/
def c7res : SingleQueryResult :=
  { Authorities := [RecordValue.answer c7ns, RecordValue.answer c7mx] }

theorem alistGet_put_self {K V : Type} [DecidableEq K] (m : List (K × V)) (k : K) (v : V) :
    alistGet (alistPut m k v) k = some v := by
  induction m with
  | nil => simp [alistPut, alistGet]
  | cons p rest ih =>
    by_cases h : p.1 = k
    · simp [alistPut, h, alistGet]
    · simp [alistPut, h, alistGet, ih]

theorem alistPut_put_self {K V : Type} [DecidableEq K] (m : List (K × V)) (k : K) (v w : V) :
    alistPut (alistPut m k v) k w = alistPut m k w := by
  induction m with
  | nil => simp [alistPut]
  | cons p rest ih =>
    by_cases h : p.1 = k
    · simp [alistPut, h]
    · simp [alistPut, h, ih]

theorem alistGet_mem {K V : Type} [DecidableEq K] {m : List (K × V)} {k : K} {v : V}
    (h : alistGet m k = some v) : (k, v) ∈ m := by
  induction m with
  | nil => simp [alistGet] at h
  | cons p rest ih =>
    by_cases hk : p.1 = k
    · simp [alistGet, hk] at h
      have hpv : p = (k, v) := Prod.ext hk h
      rw [hpv]
      exact List.mem_cons_self _ _
    · simp [alistGet, hk] at h
      exact List.mem_cons_of_mem _ (ih h)

theorem mem_alistPut_elim {K V : Type} [DecidableEq K] {m : List (K × V)} {k : K} {v : V}
    {p : K × V} (hp : p ∈ alistPut m k v) : p = (k, v) ∨ p ∈ m := by
  induction m with
  | nil => simpa [alistPut] using hp
  | cons q rest ih =>
    by_cases h : q.1 = k
    · simp only [alistPut, if_pos h, List.mem_cons] at hp
      rcases hp with h1 | h2
      · exact Or.inl h1
      · exact Or.inr (List.mem_cons_of_mem _ h2)
    · simp only [alistPut, if_neg h, List.mem_cons] at hp
      rcases hp with h1 | h2
      · exact Or.inr (h1 ▸ List.mem_cons_self _ _)
      · rcases ih h2 with h3 | h4
        · exact Or.inl h3
        · exact Or.inr (List.mem_cons_of_mem _ h4)

theorem mem_alistPut_self {K V : Type} [DecidableEq K] (m : List (K × V)) (k : K) (v : V) :
    (k, v) ∈ alistPut m k v := by
  induction m with
  | nil => simp [alistPut]
  | cons p rest ih =>
    by_cases h : p.1 = k
    · simp [alistPut, h]
    · simp only [alistPut, if_neg h]
      exact List.mem_cons_of_mem _ ih

theorem noDupKeys_put {K V : Type} [DecidableEq K] {m : List (K × V)} (k : K) (v : V)
    (h : noDupKeys m = true) : noDupKeys (alistPut m k v) = true := by
  induction m with
  | nil => simp [alistPut, noDupKeys]
  | cons p rest ih =>
    simp only [noDupKeys, Bool.and_eq_true, Bool.not_eq_true'] at h
    by_cases hk : p.1 = k
    · simp only [alistPut, if_pos hk, noDupKeys, Bool.and_eq_true, Bool.not_eq_true']
      refine ⟨?_, h.2⟩
      rw [← hk]
      exact h.1
    · simp only [alistPut, if_neg hk, noDupKeys, Bool.and_eq_true, Bool.not_eq_true']
      refine ⟨?_, ih h.2⟩
      rw [Bool.eq_false_iff]
      intro hany
      rw [List.any_eq_true] at hany
      obtain ⟨x, hx, hxk⟩ := hany
      rw [decide_eq_true_iff] at hxk
      rcases mem_alistPut_elim hx with h1 | h2
      · exact hk ((h1 ▸ hxk : (k, v).1 = p.1).symm)
      · have := h.1
        rw [Bool.eq_false_iff] at this
        exact this (List.any_eq_true.mpr ⟨x, h2, decide_eq_true hxk⟩)

theorem mem_alistPut_key_eq {K V : Type} [DecidableEq K] {m : List (K × V)} {k : K} {v : V}
    {p : K × V} (hnd : noDupKeys m = true) (hp : p ∈ alistPut m k v) (hk : p.1 = k) :
    p = (k, v) := by
  induction m with
  | nil =>
    simpa [alistPut] using hp
  | cons q rest ih =>
    simp only [noDupKeys, Bool.and_eq_true, Bool.not_eq_true'] at hnd
    by_cases h : q.1 = k
    · simp only [alistPut, if_pos h, List.mem_cons] at hp
      rcases hp with h1 | h2
      · exact h1
      · exfalso
        have := hnd.1
        rw [Bool.eq_false_iff] at this
        exact this (List.any_eq_true.mpr ⟨p, h2, decide_eq_true (by rw [hk, h])⟩)
    · simp only [alistPut, if_neg h, List.mem_cons] at hp
      rcases hp with h1 | h2
      · exact absurd (h1 ▸ hk) h
      · exact ih hnd.2 h2

theorem noDupKeys_filter {K V : Type} [DecidableEq K] (f : K × V → Bool) {m : List (K × V)}
    (h : noDupKeys m = true) : noDupKeys (m.filter f) = true := by
  induction m with
  | nil => simp [noDupKeys]
  | cons p rest ih =>
    simp only [noDupKeys, Bool.and_eq_true, Bool.not_eq_true'] at h
    by_cases hf : f p = true
    · simp only [List.filter_cons, hf, if_pos, noDupKeys, Bool.and_eq_true, Bool.not_eq_true']
      refine ⟨?_, ih h.2⟩
      rw [Bool.eq_false_iff]
      intro hany
      rw [List.any_eq_true] at hany
      obtain ⟨x, hx, hxk⟩ := hany
      have := h.1
      rw [Bool.eq_false_iff] at this
      exact this (List.any_eq_true.mpr ⟨x, List.mem_of_mem_filter hx, hxk⟩)
    · simp only [List.filter_cons, hf]
      exact ih h.2

theorem cacheWF_get {s : Cache} {k : CachedKey} {v : StoreValue}
    (hwf : cacheWF s = true) (h : alistGet s.IterativeCache k = some v) :
    storeValueWF v = true := by
  have hm := alistGet_mem h
  rw [cacheWF, Bool.and_eq_true, List.all_eq_true] at hwf
  exact hwf.2 _ hm

theorem cacheWF_put {s : Cache} {k : CachedKey} {v : StoreValue}
    (hwf : cacheWF s = true) (hv : storeValueWF v = true) :
    cacheWF { IterativeCache := alistPut s.IterativeCache k v } = true := by
  rw [cacheWF, Bool.and_eq_true, List.all_eq_true] at hwf ⊢
  refine ⟨noDupKeys_put _ _ hwf.1, ?_⟩
  intro p hp
  rcases mem_alistPut_elim hp with h1 | h2
  · rw [h1]
    exact hv
  · exact hwf.2 _ h2

theorem entryWF_put {m : List (RecordValue × TimedAnswer)} {k : RecordValue} {ta : TimedAnswer}
    (hm : entryWF { Answers := m } = true) (hk : ta.Answer = k) :
    entryWF { Answers := alistPut m k ta } = true := by
  rw [entryWF, Bool.and_eq_true, List.all_eq_true] at hm ⊢
  refine ⟨?_, noDupKeys_put _ _ hm.2⟩
  intro p hp
  rcases mem_alistPut_elim hp with h1 | h2
  · rw [h1]
    exact decide_eq_true hk
  · exact hm.1 _ h2

theorem entryWF_filter (f : RecordValue × TimedAnswer → Bool)
    {m : List (RecordValue × TimedAnswer)} (hm : entryWF { Answers := m } = true) :
    entryWF { Answers := m.filter f } = true := by
  rw [entryWF, Bool.and_eq_true, List.all_eq_true] at hm ⊢
  refine ⟨?_, noDupKeys_filter _ hm.2⟩
  intro p hp
  exact hm.1 _ (List.mem_of_mem_filter hp)

theorem layerScan_kept (now : Nat) :
    ∀ (l : List (RecordValue × TimedAnswer)) kept auths addls,
      layerScan now l = some (kept, auths, addls) →
      kept = l.filter fun p => decide (¬ p.2.ExpiresAt < now) := by
  intro l
  induction l with
  | nil =>
    intro kept auths addls h
    simp only [layerScan, Option.some.injEq, Prod.mk.injEq] at h
    simp [← h.1]
  | cons p rest ih =>
    intro kept auths addls h
    by_cases hexp : p.2.ExpiresAt < now
    · simp only [layerScan, if_pos hexp] at h
      rw [List.filter_cons, if_neg (by simpa using hexp)]
      exact ih _ _ _ h
    · rw [List.filter_cons, if_pos (by simpa using hexp)]
      cases ha : p.2.Answer with
      | other t =>
        simp [layerScan, hexp, ha] at h
      | answer castAns =>
        rcases hrec : layerScan now rest with _ | ⟨⟨kept', auths', addls'⟩⟩
        · simp [layerScan, hexp, ha, hrec] at h
        · have hk' : kept' = List.filter (fun p => decide (¬ p.2.ExpiresAt < now)) rest :=
            ih _ _ _ hrec
          by_cases h1 : castAns.RrType = TypeNS
          · simp only [layerScan, if_neg hexp, ha, hrec, if_pos h1, Option.some.injEq,
              Prod.mk.injEq] at h
            rw [← h.1, hk']
          · by_cases h2 : castAns.RrType = TypeA ∨ castAns.RrType = TypeAAAA
            · simp only [layerScan, if_neg hexp, ha, hrec, if_neg h1, if_pos h2,
                Option.some.injEq, Prod.mk.injEq] at h
              rw [← h.1, hk']
            · simp only [layerScan, if_neg hexp, ha, hrec, if_neg h1, if_neg h2,
                Option.some.injEq, Prod.mk.injEq] at h
              rw [← h.1, hk']


theorem addCachedAnswer_wf {s s2 : Cache} {a : RecordValue} {ns : Option NameServer}
    {now : Nat} (hwf : cacheWF s = true) (h : s.AddCachedAnswer a ns now = some s2) :
    cacheWF s2 = true := by
  cases a with
  | other t =>
    simp only [Cache.AddCachedAnswer, Option.some.injEq] at h
    rw [← h]
    exact hwf
  | answer a =>
    by_cases hty : cacheableType (questionFromAnswer a).Qtype
    · simp only [Cache.AddCachedAnswer, if_neg (not_not_intro hty)] at h
      rcases hget : alistGet s.IterativeCache (answerKey (questionFromAnswer a) ns) with _ | v
      · rw [hget] at h
        simp only [Option.some.injEq] at h
        rw [← h]
        refine cacheWF_put hwf ?_
        exact entryWF_put (m := []) (by decide) rfl
      · cases v with
        | cachedResult r =>
          rw [hget] at h
          simp only [Option.some.injEq] at h
          rw [← h]
          refine cacheWF_put hwf ?_
          have hr : entryWF r = true := cacheWF_get hwf hget
          exact entryWF_put (m := r.Answers) hr rfl
        | other t =>
          rw [hget] at h
          simp at h
    · simp only [Cache.AddCachedAnswer, if_pos (by exact hty), Option.some.injEq] at h
      rw [← h]
      exact hwf

theorem getCachedResult_wf {s s2 : Cache} {q : Question} {ns : Option NameServer} {now : Nat}
    {r : SingleQueryResult} {f : Bool} (hwf : cacheWF s = true)
    (h : s.GetCachedResult q ns now = some (s2, r, f)) : cacheWF s2 = true := by
  rcases hget : alistGet s.IterativeCache (answerKey q ns) with _ | v
  · simp only [Cache.GetCachedResult, hget, Option.some.injEq, Prod.mk.injEq] at h
    rw [← h.1]
    exact hwf
  · cases v with
    | other t => simp [Cache.GetCachedResult, hget] at h
    | cachedResult cr =>
      have hcr : entryWF cr = true := cacheWF_get hwf hget
      simp only [Cache.GetCachedResult, hget] at h
      split at h <;>
        (simp only [Option.some.injEq, Prod.mk.injEq] at h
         rw [← h.1]
         exact cacheWF_put hwf (entryWF_filter _ hcr))

theorem buildLayer_wf (now : Nat) (l : List RecordValue)
    (m : List (RecordValue × TimedAnswer)) (hm : entryWF { Answers := m } = true) :
    entryWF { Answers := buildLayerTimedAnswers now l m } = true := by
  induction l generalizing m with
  | nil => simpa [buildLayerTimedAnswers] using hm
  | cons a rest ih =>
    cases a with
    | other t =>
      simp only [buildLayerTimedAnswers]
      exact ih _ hm
    | answer castAns =>
      by_cases hty : castAns.RrType ≠ TypeNS ∧ castAns.RrType ≠ TypeA ∧ castAns.RrType ≠ TypeAAAA
      · simp only [buildLayerTimedAnswers, if_pos hty]
        exact ih _ hm
      · simp only [buildLayerTimedAnswers, if_neg hty]
        exact ih _ (entryWF_put hm rfl)

theorem safeAddLayerNameServers_wf {s : Cache} {layer : String} {result : SingleQueryResult}
    {ns : Option NameServer} {now : Nat} {b : Bool} (hwf : cacheWF s = true) :
    cacheWF (s.SafeAddLayerNameServers layer result ns now b) = true := by
  simp only [Cache.SafeAddLayerNameServers]
  exact cacheWF_put hwf (buildLayer_wf now _ [] (by decide))

theorem getLayerNameServers_wf {s s2 : Cache} {name : String} {now : Nat}
    {r : SingleQueryResult} {f : Bool} (hwf : cacheWF s = true)
    (h : s.GetLayerNameServers name now = some (s2, r, f)) : cacheWF s2 = true := by
  rcases hget : alistGet s.IterativeCache (layerKey name) with _ | v
  · simp only [Cache.GetLayerNameServers, hget, Option.some.injEq, Prod.mk.injEq] at h
    rw [← h.1]
    exact hwf
  · cases v with
    | other t => simp [Cache.GetLayerNameServers, hget] at h
    | cachedResult cr =>
      have hcr : entryWF cr = true := cacheWF_get hwf hget
      rcases hscan : layerScan now cr.Answers with _ | ⟨⟨kept, auths, addls⟩⟩
      · simp [Cache.GetLayerNameServers, hget, hscan] at h
      · simp only [Cache.GetLayerNameServers, hget, hscan, Option.some.injEq,
          Prod.mk.injEq] at h
        rw [← h.1]
        refine cacheWF_put hwf ?_
        have hk := layerScan_kept now cr.Answers _ _ _ hscan
        rw [hk]
        exact entryWF_filter _ hcr

theorem safeAddCachedAnswer_wf {s s2 : Cache} {a : RecordValue} {ns : Option NameServer}
    {layer : String} {now : Nat} (hwf : cacheWF s = true)
    (h : s.SafeAddCachedAnswer a ns layer now = some s2) : cacheWF s2 = true := by
  cases a with
  | other t =>
    simp only [Cache.SafeAddCachedAnswer, Option.some.injEq] at h
    rw [← h]
    exact hwf
  | answer ans =>
    by_cases hb : nameIsBeneath ans.Name layer = true
    · have heq : s.SafeAddCachedAnswer (RecordValue.answer ans) ns layer now
          = s.AddCachedAnswer (RecordValue.answer ans) ns now := by
        simp [Cache.SafeAddCachedAnswer, hb]
      rw [heq] at h
      exact addCachedAnswer_wf hwf h
    · have hb' : nameIsBeneath ans.Name layer = false := by simpa using hb
      simp only [Cache.SafeAddCachedAnswer, hb', Bool.not_false, if_pos,
        Option.some.injEq] at h
      rw [← h]
      exact hwf

theorem foldSafeAdd_wf {l : List RecordValue} :
    ∀ {s s2 : Cache} {ns : Option NameServer} {layer : String} {now : Nat},
      cacheWF s = true → foldSafeAdd s l ns layer now = some s2 → cacheWF s2 = true := by
  induction l with
  | nil =>
    intro s s2 ns layer now hwf h
    simp only [foldSafeAdd, Option.some.injEq] at h
    rw [← h]
    exact hwf
  | cons a rest ih =>
    intro s s2 ns layer now hwf h
    rcases hstep : s.SafeAddCachedAnswer a ns layer now with _ | s1
    · simp [foldSafeAdd, hstep] at h
    · simp only [foldSafeAdd, hstep] at h
      exact ih (safeAddCachedAnswer_wf hwf hstep) h

theorem cacheUpdate_wf {s s2 : Cache} {layer : String} {result : SingleQueryResult}
    {ns : Option NameServer} {now : Nat} {b : Bool} (hwf : cacheWF s = true)
    (h : s.CacheUpdate layer result ns now b = some s2) : cacheWF s2 = true := by
  rcases h1 : foldSafeAdd s result.Additional ns layer now with _ | sa
  · simp [Cache.CacheUpdate, h1] at h
  · rcases h2 : foldSafeAdd sa result.Authorities ns layer now with _ | sb
    · simp [Cache.CacheUpdate, h1, h2] at h
    · have hwa : cacheWF sa = true := foldSafeAdd_wf hwf h1
      have hwb : cacheWF sb = true := foldSafeAdd_wf hwa h2
      simp only [Cache.CacheUpdate, h1, h2] at h
      by_cases hg : (result.Flags.Authoritative || b) = true
      · rw [if_pos hg] at h
        exact foldSafeAdd_wf hwb h
      · rw [if_neg hg] at h
        simp only [Option.some.injEq] at h
        rw [← h]
        exact hwb

theorem reachable_wf {s : Cache} (h : Reachable s) : cacheWF s = true := by
  induction h with
  | init cap => rfl
  | add _ hstep ih => exact addCachedAnswer_wf ih hstep
  | get _ hstep ih => exact getCachedResult_wf ih hstep
  | safeAdd _ hstep ih => exact safeAddCachedAnswer_wf ih hstep
  | addLayer _ ih => exact safeAddLayerNameServers_wf ih
  | getLayer _ hstep ih => exact getLayerNameServers_wf ih hstep
  | update _ hstep ih => exact cacheUpdate_wf ih hstep

theorem getCachedResult_total {s : Cache} {q : Question} {ns : Option NameServer} {now : Nat}
    {cr : CachedResult}
    (hget : alistGet s.IterativeCache (answerKey q ns) = some (StoreValue.cachedResult cr)) :
    ∃ s2 r f, s.GetCachedResult q ns now = some (s2, r, f) := by
  simp only [Cache.GetCachedResult, hget]
  split
  · exact ⟨_, _, _, rfl⟩
  · exact ⟨_, _, _, rfl⟩

theorem getCachedResult_hit {s : Cache} {q : Question} {ns : Option NameServer} {now : Nat}
    {cr : CachedResult}
    (hget : alistGet s.IterativeCache (answerKey q ns) = some (StoreValue.cachedResult cr))
    (hne : (cr.Answers.filter fun p => decide (¬ p.2.ExpiresAt < now)) ≠ []) :
    s.GetCachedResult q ns now
      = some (⟨alistPut s.IterativeCache (answerKey q ns)
                 (StoreValue.cachedResult
                   ⟨cr.Answers.filter fun p => decide (¬ p.2.ExpiresAt < now)⟩)⟩,
              ⟨(cr.Answers.filter fun p => decide (¬ p.2.ExpiresAt < now)).map
                  fun p => p.2.Answer,
               [], [], ⟨false⟩, nsString ns⟩,
              true) := by
  have hie : ((cr.Answers.filter fun p => decide (¬ p.2.ExpiresAt < now)).map
      fun p => p.2.Answer).isEmpty = false := by
    rcases hl : cr.Answers.filter fun p => decide (¬ p.2.ExpiresAt < now) with _ | ⟨x, xs⟩
    · exact absurd hl hne
    · rw [hl]
      rfl
  simp only [Cache.GetCachedResult, hget]
  rw [hie]
  rfl

theorem getCachedResult_answers_from {s : Cache} {q : Question} {ns : Option NameServer}
    {now : Nat} {s2 : Cache} {r : SingleQueryResult} {f : Bool} {x : RecordValue}
    (h : s.GetCachedResult q ns now = some (s2, r, f)) (hx : x ∈ r.Answers) :
    ∃ cr p, alistGet s.IterativeCache (answerKey q ns) = some (StoreValue.cachedResult cr)
      ∧ p ∈ cr.Answers ∧ ¬ p.2.ExpiresAt < now ∧ p.2.Answer = x := by
  rcases hget : alistGet s.IterativeCache (answerKey q ns) with _ | v
  · simp only [Cache.GetCachedResult, hget, Option.some.injEq, Prod.mk.injEq] at h
    rw [← h.2.1] at hx
    simp at hx
  · cases v with
    | other t => simp [Cache.GetCachedResult, hget] at h
    | cachedResult cr =>
      refine ⟨cr, ?_⟩
      simp only [Cache.GetCachedResult, hget] at h
      split at h
      · simp only [Option.some.injEq, Prod.mk.injEq] at h
        rw [← h.2.1] at hx
        simp at hx
      · simp only [Option.some.injEq, Prod.mk.injEq] at h
        rw [← h.2.1] at hx
        simp only [List.mem_map] at hx
        obtain ⟨p, hp, hpx⟩ := hx
        have hpm := List.mem_of_mem_filter hp
        have hpe : decide (¬ p.2.ExpiresAt < now) = true := (List.mem_filter.mp hp).2
        refine ⟨p, ?_, hpm, by simpa using hpe, hpx⟩
        rfl

theorem getCachedResult_state {s : Cache} {q : Question} {ns : Option NameServer} {now : Nat}
    {s2 : Cache} {r : SingleQueryResult} {f : Bool} {cr : CachedResult}
    (hget : alistGet s.IterativeCache (answerKey q ns) = some (StoreValue.cachedResult cr))
    (h : s.GetCachedResult q ns now = some (s2, r, f)) :
    s2 = ⟨alistPut s.IterativeCache (answerKey q ns)
            (StoreValue.cachedResult
              ⟨cr.Answers.filter fun p => decide (¬ p.2.ExpiresAt < now)⟩)⟩ := by
  simp only [Cache.GetCachedResult, hget] at h
  split at h <;>
    (simp only [Option.some.injEq, Prod.mk.injEq] at h
     exact h.1.symm)

/-- Claim C1 (counterexample): at a concrete corrupt cache state, both reads
abort the process (`log.Panic`, modelled by `none`) instead of evicting the
offending entry and returning a cache miss. -/
theorem C1_cex :
    c1bad.GetCachedResult ⟨"example.com", TypeA⟩ none 0 = none
    ∧ c1bad.GetLayerNameServers "example.com" 0 = none := by
  constructor <;> rfl

/-- Claim C1 (amended): a cache read (`GetCachedResult` or
`GetLayerNameServers`) that finds a stored value whose shape does not match
`CachedResult` aborts the process via `log.Panic` (modelled by `none`); it
neither evicts the entry nor behaves as a cache miss. -/
theorem C1_corrupt_aborts (s : Cache) (q : Question) (ns : Option NameServer)
    (name : String) (now tg tl : Nat) :
    (alistGet s.IterativeCache (answerKey q ns) = some (StoreValue.other tg) →
        s.GetCachedResult q ns now = none)
    ∧ (alistGet s.IterativeCache (layerKey name) = some (StoreValue.other tl) →
        s.GetLayerNameServers name now = none) := by
  constructor
  · intro h
    simp [Cache.GetCachedResult, h]
  · intro h
    simp [Cache.GetLayerNameServers, h]

/-- Witness for C1: the amended theorem applied at a concrete corrupt state,
with both shape hypotheses discharged by evaluation. -/
theorem C1_witness :
    c1bad2.GetCachedResult ⟨"test.example", TypeNS⟩ none 3 = none
    ∧ c1bad2.GetLayerNameServers "test.example" 3 = none :=
  ⟨(C1_corrupt_aborts c1bad2 ⟨"test.example", TypeNS⟩ none "test.example" 3 9 9).1 (by rfl),
   (C1_corrupt_aborts c1bad2 ⟨"test.example", TypeNS⟩ none "test.example" 3 9 9).2 (by rfl)⟩

/-- Claim C2 (counterexample): a delegation snapshot written through
`SafeAddLayerNameServers` with a single TTL-0 NS record, read back one second
later, yields `found = true` together with a result containing zero live
answers in every section — an empty result surfaced as a cache hit. -/
theorem C2_cex :
    ((Cache.Init 4096).SafeAddLayerNameServers "example.com"
        { Authorities := [RecordValue.answer ⟨"example.com", TypeNS, 0, "ns1.example.com."⟩] }
        none 0 false).GetLayerNameServers "example.com" 1
      = some (⟨[(layerKey "example.com", StoreValue.cachedResult ⟨[]⟩)]⟩,
              ⟨[], [], [], ⟨false⟩, ""⟩, true) := by
  rfl

/-- Claim C2 (amended): `GetCachedResult` indeed never returns `found = true`
with zero surviving answers; `GetLayerNameServers`, however, returns
`found = true` whenever the snapshot entry exists and scanning does not
abort, even when expiry filtering leaves no surviving records. -/
theorem C2_empty_results (s : Cache) (q : Question) (ns : Option NameServer) (now : Nat)
    (name : String) (c : Cache) (r : SingleQueryResult) (cr : CachedResult)
    (kept : List (RecordValue × TimedAnswer)) (auths addls : List RecordValue) :
    (s.GetCachedResult q ns now = some (c, r, true) → r.Answers ≠ [])
    ∧ (alistGet s.IterativeCache (layerKey name) = some (StoreValue.cachedResult cr) →
       layerScan now cr.Answers = some (kept, auths, addls) →
       s.GetLayerNameServers name now
         = some (⟨alistPut s.IterativeCache (layerKey name)
                    (StoreValue.cachedResult ⟨kept⟩)⟩,
                 ⟨[], addls, auths, ⟨false⟩, ""⟩,
                 true)) := by
  constructor
  · intro h
    rcases hget : alistGet s.IterativeCache (answerKey q ns) with _ | v
    · simp [Cache.GetCachedResult, hget] at h
    · cases v with
      | other t => simp [Cache.GetCachedResult, hget] at h
      | cachedResult cr2 =>
        simp only [Cache.GetCachedResult, hget] at h
        split at h
        · simp at h
        · next hcond =>
          simp only [Option.some.injEq, Prod.mk.injEq] at h
          intro hnil
          apply hcond
          rw [← h.2.1] at hnil
          simp only at hnil
          rw [hnil]
          rfl
  · intro h1 h2
    simp only [Cache.GetLayerNameServers, h1, h2]

/-- Witness for C2: the amended theorem applied at a concrete state holding
one live answer entry and one empty delegation snapshot, with all hypotheses
discharged by evaluation. -/
theorem C2_witness :
    (c2wr.Answers ≠ [])
    ∧ c2wState.GetLayerNameServers "b.example" 0
        = some (⟨alistPut c2wState.IterativeCache (layerKey "b.example")
                   (StoreValue.cachedResult ⟨[]⟩)⟩,
                ⟨[], [], [], ⟨false⟩, ""⟩, true) :=
  ⟨(C2_empty_results c2wState ⟨"a.example", TypeA⟩ none 0 "b.example" c2wState c2wr
      ⟨[]⟩ [] [] []).1 (by rfl),
   (C2_empty_results c2wState ⟨"a.example", TypeA⟩ none 0 "b.example" c2wState c2wr
      ⟨[]⟩ [] [] []).2 (by rfl) (by rfl)⟩

/-- Claim C3 (counterexample): `c3a` has TTL 5 and is added at time 0; the
claim says a read at or after time 5 must exclude it, but `GetCachedResult`
at exactly time 5 still returns it as a hit — the source's expiry test
`ExpiresAt.Before(now)` is strict, so the instant t0+TTL is served. -/
theorem C3_cex :
    (Cache.Init 4096).AddCachedAnswer (RecordValue.answer c3a) none 0 = some c3s1
    ∧ c3s1.GetCachedResult (questionFromAnswer c3a) none 5
        = some (c3s1, ⟨[RecordValue.answer c3a], [], [], ⟨false⟩, ""⟩, true) := by
  constructor <;> rfl

/-- Claim C3 (amended): for an admitted answer with TTL > 0 added at t0 into
a well-formed cache, `GetCachedResult` at any time t with t0 ≤ t ≤ t0+TTL is
a hit including the answer (the interval is closed on the right, not
half-open as claimed); at any t strictly after t0+TTL the answer is excluded
and physically removed, so every subsequent read also excludes it. -/
theorem C3_ttl_boundary (s s1 : Cache) (a : Answer) (ns : Option NameServer) (t0 t : Nat)
    (hwf : cacheWF s = true)
    (hty : cacheableType a.RrType)
    (hpos : 0 < a.Ttl)
    (hadd : s.AddCachedAnswer (RecordValue.answer a) ns t0 = some s1) :
    (t0 ≤ t → t ≤ t0 + a.Ttl →
      ∃ s2 r, s1.GetCachedResult (questionFromAnswer a) ns t = some (s2, r, true)
        ∧ RecordValue.answer a ∈ r.Answers)
    ∧ (t0 + a.Ttl < t →
      ∃ s2 r f, s1.GetCachedResult (questionFromAnswer a) ns t = some (s2, r, f)
        ∧ RecordValue.answer a ∉ r.Answers
        ∧ (∀ t2 s3 r2 f2,
            s2.GetCachedResult (questionFromAnswer a) ns t2 = some (s3, r2, f2) →
            RecordValue.answer a ∉ r2.Answers)) := by
  have hty2 : cacheableType (questionFromAnswer a).Qtype := hty
  have hcore : ∃ m0, entryWF { Answers := m0 } = true ∧
      s1 = ⟨alistPut s.IterativeCache (answerKey (questionFromAnswer a) ns)
             (StoreValue.cachedResult
               ⟨alistPut m0 (RecordValue.answer a)
                 ⟨RecordValue.answer a, t0 + a.Ttl⟩⟩)⟩ := by
    rcases hget : alistGet s.IterativeCache (answerKey (questionFromAnswer a) ns) with _ | v
    · refine ⟨[], by decide, ?_⟩
      simp only [Cache.AddCachedAnswer, if_neg (not_not_intro hty2), hget,
        Option.some.injEq] at hadd
      exact hadd.symm
    · cases v with
      | cachedResult r =>
        refine ⟨r.Answers, ?_, ?_⟩
        · exact cacheWF_get hwf hget
        · simp only [Cache.AddCachedAnswer, if_neg (not_not_intro hty2), hget,
            Option.some.injEq] at hadd
          exact hadd.symm
      | other tg =>
        simp only [Cache.AddCachedAnswer, if_neg (not_not_intro hty2), hget] at hadd
        exact Option.noConfusion hadd
  obtain ⟨m0, hm0wf, hstate⟩ := hcore
  have hm0nd : noDupKeys m0 = true := by
    have h2 := hm0wf
    rw [entryWF, Bool.and_eq_true] at h2
    exact h2.2
  have hMwf : entryWF ⟨alistPut m0 (RecordValue.answer a)
      ⟨RecordValue.answer a, t0 + a.Ttl⟩⟩ = true :=
    entryWF_put hm0wf rfl
  have hlk : alistGet s1.IterativeCache (answerKey (questionFromAnswer a) ns)
      = some (StoreValue.cachedResult ⟨alistPut m0 (RecordValue.answer a)
          ⟨RecordValue.answer a, t0 + a.Ttl⟩⟩) := by
    rw [hstate]
    exact alistGet_put_self _ _ _
  have huniq : ∀ p ∈ alistPut m0 (RecordValue.answer a) ⟨RecordValue.answer a, t0 + a.Ttl⟩,
      p.2.Answer = RecordValue.answer a →
      p = (RecordValue.answer a, ⟨RecordValue.answer a, t0 + a.Ttl⟩) := by
    intro p hp hpa
    have hMwf2 := hMwf
    rw [entryWF, Bool.and_eq_true, List.all_eq_true] at hMwf2
    have h1 : p.2.Answer = p.1 := of_decide_eq_true (hMwf2.1 p hp)
    exact mem_alistPut_key_eq hm0nd hp (by rw [← h1, hpa])
  constructor
  · intro ht0 htle
    have hmem : (RecordValue.answer a, (⟨RecordValue.answer a, t0 + a.Ttl⟩ : TimedAnswer))
        ∈ alistPut m0 (RecordValue.answer a) ⟨RecordValue.answer a, t0 + a.Ttl⟩ :=
      mem_alistPut_self _ _ _
    have hsurv : (RecordValue.answer a, (⟨RecordValue.answer a, t0 + a.Ttl⟩ : TimedAnswer))
        ∈ (alistPut m0 (RecordValue.answer a) ⟨RecordValue.answer a, t0 + a.Ttl⟩).filter
            fun p => decide (¬ p.2.ExpiresAt < t) := by
      refine List.mem_filter.mpr ⟨hmem, ?_⟩
      simp only [decide_eq_true_iff]
      omega
    refine ⟨_, _, getCachedResult_hit hlk (List.ne_nil_of_mem hsurv), ?_⟩
    exact List.mem_map.mpr ⟨_, hsurv, rfl⟩
  · intro hgt
    obtain ⟨s2, r, f, hG⟩ := @getCachedResult_total s1 (questionFromAnswer a) ns t _ hlk
    have hnotin : RecordValue.answer a ∉ r.Answers := by
      intro hxin
      obtain ⟨cr2, p, hget2, hpmem, hpexp, hpx⟩ := getCachedResult_answers_from hG hxin
      rw [hlk] at hget2
      simp only [Option.some.injEq, StoreValue.cachedResult.injEq] at hget2
      rw [← hget2] at hpmem
      have hpe := huniq p hpmem hpx
      rw [hpe] at hpexp
      simp at hpexp
      omega
    have hs2 := getCachedResult_state hlk hG
    have hlk2 : alistGet s2.IterativeCache (answerKey (questionFromAnswer a) ns)
        = some (StoreValue.cachedResult
            ⟨(alistPut m0 (RecordValue.answer a) ⟨RecordValue.answer a, t0 + a.Ttl⟩).filter
              fun p => decide (¬ p.2.ExpiresAt < t)⟩) := by
      rw [hs2]
      exact alistGet_put_self _ _ _
    refine ⟨s2, r, f, hG, hnotin, ?_⟩
    intro t2 s3 r2 f2 hG2 hxin
    obtain ⟨cr3, p, hget3, hpmem, hpexp, hpx⟩ := getCachedResult_answers_from hG2 hxin
    rw [hlk2] at hget3
    simp only [Option.some.injEq, StoreValue.cachedResult.injEq] at hget3
    rw [← hget3] at hpmem
    have hpM := List.mem_of_mem_filter hpmem
    have hpt : decide (¬ p.2.ExpiresAt < t) = true := (List.mem_filter.mp hpmem).2
    have hpe := huniq p hpM hpx
    rw [hpe] at hpt
    simp at hpt
    omega

/-- Witness for C3: the amended theorem applied to the concrete record `c3a`
(TTL 5, added at time 0), once at the boundary instant t = 5 and once at
t = 6, with all hypotheses discharged by evaluation. -/
theorem C3_witness :
    (∃ s2 r, c3s1.GetCachedResult (questionFromAnswer c3a) none 5 = some (s2, r, true)
      ∧ RecordValue.answer c3a ∈ r.Answers)
    ∧ (∃ s2 r f, c3s1.GetCachedResult (questionFromAnswer c3a) none 6 = some (s2, r, f)
      ∧ RecordValue.answer c3a ∉ r.Answers
      ∧ (∀ t2 s3 r2 f2,
          s2.GetCachedResult (questionFromAnswer c3a) none t2 = some (s3, r2, f2) →
          RecordValue.answer c3a ∉ r2.Answers)) :=
  ⟨(C3_ttl_boundary (Cache.Init 4096) c3s1 c3a none 0 5 (by rfl) (by decide) (by decide)
      (by decide)).1 (by decide) (by decide),
   (C3_ttl_boundary (Cache.Init 4096) c3s1 c3a none 0 6 (by rfl) (by decide) (by decide)
      (by decide)).2 (by decide)⟩

/-- Claim C4 (counterexample): two A records identical except for TTL are
stored as two separate bindings under one cache key: the dedup key is the
full record value, TTL included, so re-adding with a different TTL does not
overwrite the existing `TimedAnswer`. -/
theorem C4_cex :
    (Cache.Init 4096).AddCachedAnswer (RecordValue.answer c4a1) none 0 = some c4s1
    ∧ c4s1.AddCachedAnswer (RecordValue.answer c4a2) none 0 = some c4s2
    ∧ specCanonicalIdentity c4a1 = specCanonicalIdentity c4a2
    ∧ c4a1 ≠ c4a2
    ∧ alistGet c4s2.IterativeCache (answerKey ⟨"a.example.com", TypeA⟩ none)
        = some (StoreValue.cachedResult
            ⟨[(RecordValue.answer c4a1, ⟨RecordValue.answer c4a1, 5⟩),
              (RecordValue.answer c4a2, ⟨RecordValue.answer c4a2, 7⟩)]⟩) := by
  refine ⟨by decide, by decide, by decide, by decide, by decide⟩

/-- Claim C4 (amended): in every reachable cache state, a stored entry never
contains two bindings with the same full record value (TTL included): the
source deduplicates on the whole `Answer` used as the map key, so re-adding
a record identical in all fields overwrites its `TimedAnswer`, while records
differing only in TTL coexist as distinct entries. -/
theorem C4_dedup_full_value {s : Cache} (h : Reachable s) :
    ∀ k cr, alistGet s.IterativeCache k = some (StoreValue.cachedResult cr) →
      noDupKeys cr.Answers = true := by
  intro k cr hget
  have hv : entryWF cr = true := cacheWF_get (reachable_wf h) hget
  rw [entryWF, Bool.and_eq_true] at hv
  exact hv.2

/-- Witness for C4: the amended invariant applied at the reachable state
`c4s2` produced by the two adds of the counterexample. -/
theorem C4_witness :
    noDupKeys [(RecordValue.answer c4a1, (⟨RecordValue.answer c4a1, 5⟩ : TimedAnswer)),
               (RecordValue.answer c4a2, (⟨RecordValue.answer c4a2, 7⟩ : TimedAnswer))] = true :=
  C4_dedup_full_value
    (@Reachable.add c4s1 c4s2 (RecordValue.answer c4a2) none 0
      (@Reachable.add (Cache.Init 4096) c4s1 (RecordValue.answer c4a1) none 0
        (Reachable.init 4096) (by decide))
      (by decide))
    (answerKey ⟨"a.example.com", TypeA⟩ none)
    ⟨[(RecordValue.answer c4a1, ⟨RecordValue.answer c4a1, 5⟩),
      (RecordValue.answer c4a2, ⟨RecordValue.answer c4a2, 7⟩)]⟩
    (by rfl)

/-- Claim C5 (confirmed): `SafeAddCachedAnswer` drops an answer whose owner
name is not equal to or beneath the zone layer without touching the cache
(so it never becomes retrievable), and otherwise delegates to
`AddCachedAnswer`. -/
theorem C5_poison_guard (s : Cache) (a : Answer) (ns : Option NameServer) (layer : String)
    (now : Nat) :
    (nameIsBeneath a.Name layer = false →
        s.SafeAddCachedAnswer (RecordValue.answer a) ns layer now = some s)
    ∧ (nameIsBeneath a.Name layer = true →
        s.SafeAddCachedAnswer (RecordValue.answer a) ns layer now
          = s.AddCachedAnswer (RecordValue.answer a) ns now) := by
  constructor
  · intro h
    simp [Cache.SafeAddCachedAnswer, h]
  · intro h
    simp [Cache.SafeAddCachedAnswer, h]

/-- Witness for C5: the guard applied to an off-path record
(`evil.example` against layer `example.com`) and to an on-path record
(`www.example.com`). -/
theorem C5_witness :
    ((Cache.Init 4096).SafeAddCachedAnswer
        (RecordValue.answer ⟨"evil.example", TypeA, 60, "6.6.6.6"⟩) none "example.com" 0
      = some (Cache.Init 4096))
    ∧ ((Cache.Init 4096).SafeAddCachedAnswer
        (RecordValue.answer ⟨"www.example.com", TypeA, 60, "1.2.3.4"⟩) none "example.com" 0
      = (Cache.Init 4096).AddCachedAnswer
          (RecordValue.answer ⟨"www.example.com", TypeA, 60, "1.2.3.4"⟩) none 0) :=
  ⟨(C5_poison_guard (Cache.Init 4096) ⟨"evil.example", TypeA, 60, "6.6.6.6"⟩ none
      "example.com" 0).1 (by decide),
   (C5_poison_guard (Cache.Init 4096) ⟨"www.example.com", TypeA, 60, "1.2.3.4"⟩ none
      "example.com" 0).2 (by decide)⟩

/-- Claim C6 (confirmed): a second `SafeAddLayerNameServers` for the same
zone replaces the delegation snapshot wholesale: the resulting cache state,
and hence any subsequent `GetLayerNameServers`, is identical to having added
only the second result — no union with the first. -/
theorem C6_snapshot_replace (s : Cache) (zone : String) (rA rB : SingleQueryResult)
    (nsA nsB : Option NameServer) (tA tB tG : Nat) (bA bB : Bool) :
    ((s.SafeAddLayerNameServers zone rA nsA tA bA).SafeAddLayerNameServers zone rB nsB tB bB
        = s.SafeAddLayerNameServers zone rB nsB tB bB)
    ∧ (((s.SafeAddLayerNameServers zone rA nsA tA bA).SafeAddLayerNameServers
          zone rB nsB tB bB).GetLayerNameServers zone tG
        = (s.SafeAddLayerNameServers zone rB nsB tB bB).GetLayerNameServers zone tG) := by
  have hstate : (s.SafeAddLayerNameServers zone rA nsA tA bA).SafeAddLayerNameServers
      zone rB nsB tB bB = s.SafeAddLayerNameServers zone rB nsB tB bB := by
    simp only [Cache.SafeAddLayerNameServers]
    rw [alistPut_put_self]
  exact ⟨hstate, by rw [hstate]⟩

theorem buildLayer_types (now : Nat) (l : List RecordValue)
    (m : List (RecordValue × TimedAnswer))
    (hm : ∀ p ∈ m, ∃ a2, p.1 = RecordValue.answer a2
        ∧ (a2.RrType = TypeNS ∨ a2.RrType = TypeA ∨ a2.RrType = TypeAAAA)) :
    ∀ p ∈ buildLayerTimedAnswers now l m, ∃ a2, p.1 = RecordValue.answer a2
        ∧ (a2.RrType = TypeNS ∨ a2.RrType = TypeA ∨ a2.RrType = TypeAAAA) := by
  induction l generalizing m with
  | nil => simpa [buildLayerTimedAnswers] using hm
  | cons a rest ih =>
    cases a with
    | other t =>
      simp only [buildLayerTimedAnswers]
      exact ih _ hm
    | answer castAns =>
      by_cases hty : castAns.RrType ≠ TypeNS ∧ castAns.RrType ≠ TypeA ∧ castAns.RrType ≠ TypeAAAA
      · simp only [buildLayerTimedAnswers, if_pos hty]
        exact ih _ hm
      · simp only [buildLayerTimedAnswers, if_neg hty]
        refine ih _ ?_
        intro p hp
        rcases mem_alistPut_elim hp with h1 | h2
        · refine ⟨castAns, ?_, ?_⟩
          · rw [h1]
          · tauto
        · exact hm _ h2

/-- Claim C7 (confirmed): `AddCachedAnswer` is a no-op for any record type
other than A, AAAA, NS, DNAME, CNAME, and every binding of a delegation
snapshot written by `SafeAddLayerNameServers` is an NS, A, or AAAA record —
so a record of any other type (e.g. MX) is never stored by either write path
and can never be returned by a read. -/
theorem C7_admission (s : Cache) (a : Answer) (ns : Option NameServer) (now : Nat)
    (layer : String) (result : SingleQueryResult) (b : Bool) :
    (¬ cacheableType a.RrType →
        s.AddCachedAnswer (RecordValue.answer a) ns now = some s)
    ∧ (∀ cr, alistGet (s.SafeAddLayerNameServers layer result ns now b).IterativeCache
          (layerKey layer) = some (StoreValue.cachedResult cr) →
        ∀ p ∈ cr.Answers, ∃ a2, p.1 = RecordValue.answer a2
          ∧ (a2.RrType = TypeNS ∨ a2.RrType = TypeA ∨ a2.RrType = TypeAAAA)) := by
  constructor
  · intro h
    have h2 : ¬ cacheableType (questionFromAnswer a).Qtype := h
    simp only [Cache.AddCachedAnswer, if_pos h2]
  · intro cr hget p hp
    simp only [Cache.SafeAddLayerNameServers] at hget
    rw [alistGet_put_self] at hget
    simp only [Option.some.injEq, StoreValue.cachedResult.injEq] at hget
    rw [← hget] at hp
    exact buildLayer_types now _ [] (by simp) p hp

/-- Witness for C7: the admission theorem applied to an MX record (dropped by
`AddCachedAnswer`) and to the snapshot built from `c7res` (one NS and one MX
in the Authority section), whose single stored binding is the NS record. -/
theorem C7_witness :
    ((Cache.Init 4096).AddCachedAnswer (RecordValue.answer c7mx) none 0
        = some (Cache.Init 4096))
    ∧ (∃ a2, (RecordValue.answer c7ns,
          (⟨RecordValue.answer c7ns, 60⟩ : TimedAnswer)).1 = RecordValue.answer a2
        ∧ (a2.RrType = TypeNS ∨ a2.RrType = TypeA ∨ a2.RrType = TypeAAAA)) :=
  ⟨(C7_admission (Cache.Init 4096) c7mx none 0 "example.com" c7res false).1 (by decide),
   (C7_admission (Cache.Init 4096) c7mx none 0 "example.com" c7res false).2
      ⟨[(RecordValue.answer c7ns, ⟨RecordValue.answer c7ns, 60⟩)]⟩ (by rfl)
      (RecordValue.answer c7ns, ⟨RecordValue.answer c7ns, 60⟩) (by decide)⟩

/-- Claim C8 (confirmed): `CacheUpdate` runs every Additional record, then
every Authority record, through `SafeAddCachedAnswer` unconditionally, and
runs the Answer records through it exactly when the response is
authoritative or the caller opted in via `cacheNonAuthoritativeAns`. -/
theorem C8_cacheUpdate (s : Cache) (layer : String) (result : SingleQueryResult)
    (ns : Option NameServer) (now : Nat) (b : Bool) :
    s.CacheUpdate layer result ns now b =
      match foldSafeAdd s (result.Additional ++ result.Authorities) ns layer now with
      | none => none
      | some s2 =>
        if result.Flags.Authoritative || b then foldSafeAdd s2 result.Answers ns layer now
        else some s2 := by
  have happ : ∀ (l1 l2 : List RecordValue) (s0 : Cache),
      foldSafeAdd s0 (l1 ++ l2) ns layer now =
        match foldSafeAdd s0 l1 ns layer now with
        | none => none
        | some s1 => foldSafeAdd s1 l2 ns layer now := by
    intro l1
    induction l1 with
    | nil =>
      intro l2 s0
      simp [foldSafeAdd]
    | cons a rest ih =>
      intro l2 s0
      simp only [List.cons_append, foldSafeAdd]
      rcases s0.SafeAddCachedAnswer a ns layer now with _ | s1
      · rfl
      · exact ih l2 s1
  rw [happ]
  rcases h1 : foldSafeAdd s result.Additional ns layer now with _ | s1
  · simp [Cache.CacheUpdate, h1]
  · rcases h2 : foldSafeAdd s1 result.Authorities ns layer now with _ | s2
    · simp [Cache.CacheUpdate, h1, h2]
    · simp [Cache.CacheUpdate, h1, h2]

/-- Claim C9 (code bug): the statistics wiring required by the spec is absent
from the source: a `GetCachedResult` miss with statistics capture enabled
leaves every counter unchanged (the increments in `cache.go` are commented
out and `Cache` has no statistics field), whereas `IncrementMisses` — which
the claim requires to run on every miss — would have advanced the `Misses`
counter to 1. -/
theorem C9_stats_unwired :
    cacheGetWithStats (Cache.Init 4096) ⟨true, 0, 0, 0, 0⟩ ⟨"example.com", TypeA⟩ none 0
      = some (Cache.Init 4096, ⟨true, 0, 0, 0, 0⟩, {}, false)
    ∧ (CacheStatistics.IncrementMisses ⟨true, 0, 0, 0, 0⟩).Misses = 1 := by
  constructor <;> rfl

/-- Claim C10 (confirmed): `SafeAddLayerNameServers` ignores its
`cacheNonAuthoritativeAns` parameter entirely: the resulting cache state is
identical for any two values of the flag. -/
theorem C10_param_no_effect (s : Cache) (layer : String) (result : SingleQueryResult)
    (ns : Option NameServer) (now : Nat) (b1 b2 : Bool) :
    s.SafeAddLayerNameServers layer result ns now b1
      = s.SafeAddLayerNameServers layer result ns now b2 := rfl

end ZDNS
